import Mathlib

set_option maxHeartbeats 1000000

/-!
Verification of the transaction-annotation core of the Klerno Labs repository:
the risk scoring engine (`app/guardian.py`) and the multi-label compliance
classifier (`app/compliance.py`).  Python values are embedded shallowly:
`Decimal` amounts become exact rationals (`ℚ`), Python floats used for
category scores also become `ℚ` (the weights 0.4, 0.6, 1.0 are exact),
strings stay `String`, fallible parsing becomes `Option`, and a raised
exception in otherwise-total code becomes `Except.error`.
-/

/-! ## Python string primitives used by both modules -/

/-- Uppercase → lowercase table for ASCII letters, the alphabet on which
`str.lower()` acts in every string this core manipulates. -/
def UPPER_LOWER : List (Char × Char) :=
  [('A', 'a'), ('B', 'b'), ('C', 'c'), ('D', 'd'), ('E', 'e'), ('F', 'f'),
   ('G', 'g'), ('H', 'h'), ('I', 'i'), ('J', 'j'), ('K', 'k'), ('L', 'l'),
   ('M', 'm'), ('N', 'n'), ('O', 'o'), ('P', 'p'), ('Q', 'q'), ('R', 'r'),
   ('S', 's'), ('T', 't'), ('U', 'u'), ('V', 'v'), ('W', 'w'), ('X', 'x'),
   ('Y', 'y'), ('Z', 'z')]

/-- Lowercase a single character (model of `str.lower()` per character,
restricted to ASCII). -/
def lowerChar (c : Char) : Char :=
  ((UPPER_LOWER.find? (fun p => p.1 == c)).map (fun p => p.2)).getD c

/-- Model of Python `str.lower()` (ASCII). -/
def lowerStr (s : String) : String := String.mk (s.data.map lowerChar)

/-- Model of Python `str.strip()`: drop leading and trailing whitespace. -/
def pyStrip (s : String) : String :=
  String.mk (((s.data.dropWhile Char.isWhitespace).reverse.dropWhile
      Char.isWhitespace).reverse)

/-- Does `hay` start with `needle`? (helper for substring containment). -/
def startsWithList : List Char → List Char → Bool
  | [], _ => true
  | _ :: _, [] => false
  | n :: ns, h :: hs => n == h && startsWithList ns hs

/-- Model of Python `needle in hay` substring containment. -/
def strIn (needle : List Char) : List Char → Bool
  | [] => startsWithList needle []
  | h :: t => startsWithList needle (h :: t) || strIn needle t

/-! ## Python `Decimal` values

`amount` and `fee` reach the scorers as arbitrary Python values and are
coerced through `_as_decimal`.  A value is either an actual `Decimal`
(embedded as an exact rational), an arbitrary other value whose `str()`
form is kept (the coercers run it through the `Decimal` constructor), or
Python `None`. -/

inductive PyVal where
  | dec (q : ℚ)
  | str (s : String)
  | pynone
deriving DecidableEq

/-- Numeric value of a digit list, most significant first. -/
def digitsVal (cs : List Char) : ℕ := cs.foldl (fun n c => 10 * n + (c.toNat - 48)) 0

/-- Core of the `decimal.Decimal` string constructor on unsigned finite
literals: digits with an optional single decimal point (`"12"`, `"12.5"`,
`".5"`, `"12."`).  Exponent forms and the non-finite literals
(`NaN`/`Infinity`) are outside the scope of this model; every string the
claims rely on is either a plain decimal literal or unparseable. -/
def parseDecCore (cs : List Char) : Option ℚ :=
  let ip := cs.takeWhile Char.isDigit
  let rest := cs.dropWhile Char.isDigit
  match rest with
  | [] => if ip = [] then none else some (digitsVal ip)
  | '.' :: fp =>
    if fp.all Char.isDigit ∧ ¬(ip = [] ∧ fp = []) then
      some ((digitsVal ip : ℚ) + (digitsVal fp : ℚ) / (10 : ℚ) ^ fp.length)
    else none
  | _ => none

/-- Model of `decimal.Decimal(s)` on finite literals: optional sign, then
an unsigned literal; surrounding whitespace is accepted.  `none` models the
constructor raising `InvalidOperation`. -/
def parseDec (s : String) : Option ℚ :=
  match (pyStrip s).data with
  | '+' :: cs => parseDecCore cs
  | '-' :: cs => (parseDecCore cs).map (fun q => -q)
  | cs => parseDecCore cs

/-! ## Transaction records

`score_risk` reads fields through `_get` (attribute or dict key) and
`tag_categories` through `getattr`; following the spec's design note the
embedding uses one canonical record.  A missing/`None` numeric field is
`PyVal.pynone`, a missing string field is `none`. -/

structure Tx where
  memo : Option String
  amount : PyVal
  fee : PyVal
  direction : Option String
  tags : List String
  is_internal : Bool
  from_address : Option String
  to_address : Option String
deriving DecidableEq

/-- Transaction with every field absent/neutral; concrete inputs are built
by updating its fields adding. -/
def txDefault : Tx :=
  { memo := none, amount := PyVal.pynone, fee := PyVal.pynone, direction := none,
    tags := [], is_internal := false, from_address := none, to_address := none }

/-! ## `app/guardian.py` — the risk scorer -/

/-- Source: `SUSPICIOUS_WORDS` (a Python `set`; embedded as a list, the
scorer only counts which members occur so the order is irrelevant). -/
def SUSPICIOUS_WORDS : List String :=
  ["scam", "phish", "hack", "fraud", "ransom", "malware",
   "blackmail", "mixer", "tornado", "sanction", "darknet"]

/-- Source: guardian `_as_decimal(x, default="0")`: a `Decimal` is kept,
any other value is passed through `Decimal(str(x))`, and on failure the
default `Decimal("0")` is returned.  (`str(None)` is `"None"`, which the
`Decimal` constructor rejects.) -/
def asDecimalG : PyVal → ℚ
  | PyVal.dec q => q
  | PyVal.str s => (parseDec s).getD 0
  | PyVal.pynone => (parseDec "None").getD 0

/-- Source: guardian `_norm(s)`: `(s or "").strip().lower()`. -/
def normG (s : Option String) : String := lowerStr (pyStrip (s.getD ""))

/-- Direction-and-magnitude block of `score_risk` (score delta, flags). -/
def dirStep (direction : String) (amount : ℚ) : ℚ × List String :=
  if direction ∈ ["out", "outgoing", "debit"] then
    ((if |amount| > 0 then (0.10 : ℚ) else 0) +
     (if |amount| > 100 then (0.10 : ℚ) else 0) +
     (if |amount| > 1000 then (0.15 : ℚ) else 0) +
     (if |amount| > 10000 then (0.15 : ℚ) else 0),
     ["outgoing"] ++
     (if |amount| > 100 then ["medium_outgoing"] else []) ++
     (if |amount| > 1000 then ["large_outgoing"] else []) ++
     (if |amount| > 10000 then ["very_large_outgoing"] else []))
  else if direction ∈ ["in", "incoming", "credit"] then
    (-(0.05 : ℚ), ["incoming"])
  else (0, [])

/-- Fee-pressure block of `score_risk`; the ratio `fee / |amount|` is only
computed under the `amount ≠ 0` guard (with the redundant inner
`|amount| > 0` guard kept from the source). -/
def feeStep (fee amount : ℚ) : ℚ × List String :=
  if fee > 0 then
    if amount ≠ 0 then
      ((0.05 : ℚ) +
       (if (if |amount| > 0 then fee / |amount| else 0) > 0.01 then (0.05 : ℚ) else 0) +
       (if (if |amount| > 0 then fee / |amount| else 0) > 0.05 then (0.10 : ℚ) else 0),
       ["fee_present"] ++
       (if (if |amount| > 0 then fee / |amount| else 0) > 0.01 then ["high_fee_ratio"] else []) ++
       (if (if |amount| > 0 then fee / |amount| else 0) > 0.05 then ["very_high_fee_ratio"] else []))
    else ((0.05 : ℚ), ["fee_present"])
  else (0, [])

/-- Suspicious-memo block of `score_risk`: on a nonempty memo, count the
suspicious words occurring as substrings and add `0.20 + 0.05 * hits`. -/
def memoStep (memo : String) : ℚ × List String :=
  if memo ≠ "" then
    if (SUSPICIOUS_WORDS.filter (fun w => strIn w.data memo.data)).length ≠ 0 then
      ((0.20 : ℚ) + (0.05 : ℚ) *
        ((SUSPICIOUS_WORDS.filter (fun w => strIn w.data memo.data)).length : ℚ),
       ["suspicious_memo"])
    else (0, [])
  else (0, [])

/-- Tag-based adjustment block of `score_risk`. -/
def tagStep (tags : List String) : ℚ × List String :=
  if "sanctioned" ∈ tags ∨ "mixer" ∈ tags then ((0.20 : ℚ), ["sanctioned_or_mixer"])
  else (0, [])

/-- Internal-transfer discount block of `score_risk`. -/
def internalStep (is_internal : Bool) : ℚ × List String :=
  if is_internal then (-(0.25 : ℚ), ["internal_transfer"]) else (0, [])

/-- Accumulate one block: add its score delta, append its flags. -/
def stepAdd (a b : ℚ × List String) : ℚ × List String := (a.1 + b.1, a.2 ++ b.2)

/-- Running score and flags of `score_risk` just before the final clamp
(the value of the local `score` variable after all five blocks). -/
def score_risk_raw (tx : Tx) : ℚ × List String :=
  stepAdd (stepAdd (stepAdd (stepAdd (stepAdd ((0.10 : ℚ), ([] : List String))
    (dirStep (normG tx.direction) (asDecimalG tx.amount)))
    (feeStep (asDecimalG tx.fee) (asDecimalG tx.amount)))
    (memoStep (normG tx.memo)))
    (tagStep (tx.tags.map (fun t => normG (some t)))))
    (internalStep tx.is_internal)

/-- Final clamp of `score_risk`: `if score < 0: score = 0` then
`if score > 1: score = 1`. -/
def clamp01 (s : ℚ) : ℚ :=
  if (if s < 0 then (0 : ℚ) else s) > 1 then 1 else (if s < 0 then (0 : ℚ) else s)

/-- Source: `score_risk(tx)` returning `(score, flags)` with the score
clamped to `[0, 1]`. -/
def score_risk (tx : Tx) : ℚ × List String :=
  (clamp01 (score_risk_raw tx).1, (score_risk_raw tx).2)

/-- Source: `score_risk_value(tx)`, the back-compat scalar wrapper. -/
def score_risk_value (tx : Tx) : ℚ := (score_risk tx).1


/-! ## `app/compliance.py` — data model and configuration -/

/-- Source: `TagReason` dataclass. -/
structure TagReason where
  category : String
  reason : String
deriving DecidableEq

/-- Source: `TagResult` dataclass; the Python `float` score is embedded as
an exact rational (the weights 0.4, 0.6 and 1.0 and their sums here are
small dyadic-free sums that the spec directs to treat as exact decimals). -/
structure TagResult where
  category : String
  score : ℚ
  reasons : List TagReason
deriving DecidableEq

/-- Source: `DEFAULT_KEYWORDS` (insertion-ordered dict → association list). -/
def DEFAULT_KEYWORDS : List (String × List String) :=
  [("income", ["salary", "airdrop", "reward", "interest", "yield"]),
   ("fee", ["fee", "gas", "network"]),
   ("trade", ["swap", "trade", "exchange"]),
   ("transfer", ["transfer", "send", "receive"])]

/-- Source: `DEFAULT_PRIORITY`. -/
def DEFAULT_PRIORITY : List String := ["fee", "trade", "income", "transfer"]

/-- Result of `yaml.safe_load` on an existing config file, as the loader
consumes it: the load can raise (`failed`), return a non-mapping document
(whose `.get` then raises `AttributeError`), or return a mapping whose
`keywords`/`priority` entries are either absent-or-falsy (`none`) or
usable values. -/
inductive YamlDoc where
  | failed
  | scalar
  | mapping (keywords : Option (List (String × List String)))
            (priority : Option (List String))

/-- Source: `_load_tagging_config(path)`.  The filesystem is modelled as a
map from paths to parsed contents (`none` = the file does not exist).  The
function body has no exception handler, so a parse failure or a
non-mapping document propagates as an exception, modelled as
`Except.error`. -/
def load_tagging_config (fs : String → Option YamlDoc) (path : String) :
    Except String (List (String × List String) × List String) :=
  match fs path with
  | none => Except.ok (DEFAULT_KEYWORDS, DEFAULT_PRIORITY)
  | some YamlDoc.failed => Except.error "yaml.safe_load raised on malformed content"
  | some YamlDoc.scalar => Except.error "AttributeError: document is not a mapping"
  | some (YamlDoc.mapping kw pr) =>
    Except.ok (kw.getD DEFAULT_KEYWORDS, pr.getD DEFAULT_PRIORITY)

/-- Source: module-level `KEYWORDS`: the repository ships no
`automation/tagging.yaml`, so the import-time load finds no file and the
defaults are in effect. -/
def KEYWORDS : List (String × List String) := DEFAULT_KEYWORDS

/-- Source: module-level `PRIORITY`, likewise the default. -/
def PRIORITY : List String := DEFAULT_PRIORITY

/-- Source: compliance `_as_decimal(x)`: `None` → 0, `Decimal` kept, any
other value through `Decimal(str(x))` with 0 on failure. -/
def asDecimalC : PyVal → ℚ
  | PyVal.pynone => 0
  | PyVal.dec q => q
  | PyVal.str s => (parseDec s).getD 0

/-- Source: compliance `_norm(text)`: `(text or "").strip()` (no
lowercasing here, unlike the guardian `_norm`). -/
def normC (s : Option String) : String := pyStrip (s.getD "")

/-! ## AddressBook and internal transfers -/

/-- Source: `AddressBook`; its constructor lowercases the owned set. -/
structure AddressBook where
  owned : List String
deriving DecidableEq

/-- Source: `AddressBook.__init__(owned)`. -/
def AddressBook.ofOwned (owned : List String) : AddressBook :=
  { owned := owned.map lowerStr }

/-- Source: `AddressBook.is_owned(addr)`:
`bool(addr) and addr.lower() in self.owned`. -/
def AddressBook.is_owned (b : AddressBook) (addr : Option String) : Bool :=
  match addr with
  | none => false
  | some a => decide (a ≠ "") && decide (lowerStr a ∈ b.owned)

/-- Source: `_is_internal_transfer(tx, book)`. -/
def is_internal_transfer (tx : Tx) (book : Option AddressBook) : Bool :=
  match book with
  | none => false
  | some b =>
    decide (lowerStr (normC tx.from_address) ≠ "") &&
    decide (lowerStr (normC tx.to_address) ≠ "") &&
    b.is_owned (some (lowerStr (normC tx.from_address))) &&
    b.is_owned (some (lowerStr (normC tx.to_address)))

/-! ## Keyword regexes

`KEYWORD_PATTERNS` compiles, for every configured keyword `w`, the regex
`rf"\b{re.escape(w)}\b"` with `re.IGNORECASE`, and `tag_categories` calls
`pattern.search(memo)`.  The model below implements exactly that search:
`re.escape` makes `w` literal, `\b` demands a word/non-word boundary, and
`IGNORECASE` compares characters after lowercasing. -/

/-- Word characters of the regex `\b` class (ASCII `\w`). -/
def isWordChar (c : Char) : Bool := c.isAlpha || c.isDigit || c == '_'

/-- Match the literal pattern `w` (case-insensitively) against a prefix of
the text, returning the remainder on success. -/
def stripCI : List Char → List Char → Option (List Char)
  | [], rest => some rest
  | _ :: _, [] => none
  | c :: cs, d :: ds => if lowerChar c == lowerChar d then stripCI cs ds else none

/-- Is there a `\b` boundary between two (optional) adjacent characters?
Exactly one side must be a word character; the ends of the string count as
non-word. -/
def boundaryB (a b : Option Char) : Bool :=
  ((a.map isWordChar).getD false) != ((b.map isWordChar).getD false)

/-- Scan of `re.search` for `\b w \b`: try a boundary-delimited
case-insensitive match of `w` at each position; `prev` is the character
just before the current position. -/
def searchFrom (w : List Char) : Option Char → List Char → Bool
  | prev, [] =>
    (match stripCI w [] with
     | some rem => boundaryB prev w.head? && boundaryB w.getLast? rem.head?
     | none => false)
  | prev, d :: ds =>
    (match stripCI w (d :: ds) with
     | some rem => boundaryB prev w.head? && boundaryB w.getLast? rem.head?
     | none => false) || searchFrom w (some d) ds

/-- Model of `re.search(rf"\b{re.escape(w)}\b", memo, re.IGNORECASE)`
being truthy. -/
def reSearchWord (w memo : String) : Bool := searchFrom w.data none memo.data

/-- Model of `re.escape` (Python ≥ 3.7: every ASCII character other than
alphanumerics and `_` gets a backslash). -/
def reEscape (w : String) : String :=
  String.mk (w.data.foldr
    (fun c acc => if c.isAlphanum || c == '_' then c :: acc else '\\' :: c :: acc) [])

/-- Text of `pat.pattern` for the compiled keyword regex. -/
def patternOf (w : String) : String := "\\b" ++ reEscape w ++ "\\b"

/-- Reason recorded for a keyword match:
`TagReason(cat, f"Keyword match: {pat.pattern}")`. -/
def kwReason (cat w : String) : TagReason :=
  { category := cat, reason := "Keyword match: " ++ patternOf w }

/-! ## `tag_categories` -/

/-- Fixed reasons of the non-keyword signals. -/
def feeSignalReason : TagReason :=
  { category := "fee", reason := "Positive fee + nonpositive amount" }

/-- Reason of the internal-transfer boost. -/
def internalReason : TagReason :=
  { category := "transfer", reason := "Internal transfer (same owner)" }

/-- Reason of the inbound direction signal. -/
def inboundReason : TagReason :=
  { category := "income", reason := "Direction suggests inbound" }

/-- Reason of the outbound direction signal. -/
def outboundReason : TagReason :=
  { category := "expense", reason := "Direction suggests outbound" }

/-- Mutation of the first result with the given category: add the weight
to its score and append the reason (`found.score += w; found.reasons.append`). -/
def updateFirst (cat : String) (w : ℚ) (re : TagReason) : List TagResult → List TagResult
  | [] => []
  | r :: rs =>
    if r.category = cat then
      { r with score := r.score + w, reasons := r.reasons ++ [re] } :: rs
    else r :: updateFirst cat w re rs

/-- Source pattern used by every signal after the first:
`found = next((r for r in results if r.category == cat), None)`; update it
in place if found, else append a fresh `TagResult`. -/
def addSignal (rs : List TagResult) (cat : String) (w : ℚ) (re : TagReason) : List TagResult :=
  if rs.any (fun r => r.category == cat) then updateFirst cat w re rs
  else rs ++ [{ category := cat, score := w, reasons := [re] }]

/-- Fee heuristic (step 1): `fee > 0 and amount <= 0` appends a fresh
`fee` result with weight 1.0 to the (still empty) result list. -/
def feePhase (fee amount : ℚ) : List TagResult :=
  if fee > 0 ∧ amount ≤ 0 then
    [{ category := "fee", score := 1.0, reasons := [feeSignalReason] }]
  else []

/-- Keyword hits for one category (inner loop of step 2). -/
def wordsFold (memo cat : String) (ws : List String) (acc : List TagResult) : List TagResult :=
  ws.foldl
    (fun acc w => if reSearchWord w memo then addSignal acc cat 0.6 (kwReason cat w) else acc)
    acc

/-- Keyword hits over every configured category (step 2). -/
def kwFold (memo : String) (kws : List (String × List String)) (acc : List TagResult) :
    List TagResult :=
  kws.foldl (fun acc p => wordsFold memo p.1 p.2 acc) acc

/-- Internal-transfer boost (step 3). -/
def internalPhase (fired : Bool) (rs : List TagResult) : List TagResult :=
  if fired then addSignal rs "transfer" 1.0 internalReason else rs

/-- Direction soft signal (step 4). -/
def directionPhase (direction : String) (rs : List TagResult) : List TagResult :=
  if direction ∈ ["in", "incoming", "credit"] then addSignal rs "income" 0.4 inboundReason
  else if direction ∈ ["out", "outgoing", "debit"] then addSignal rs "expense" 0.4 outboundReason
  else rs

/-- Comparator of the final `results.sort(key=lambda r: r.score, reverse=True)`:
descending by score.  `insertionSort` with this relation is a stable
descending sort, which is what Python's stable `list.sort` performs. -/
def byScoreDesc (a b : TagResult) : Prop := b.score ≤ a.score

instance : DecidableRel byScoreDesc := fun a b => inferInstanceAs (Decidable (b.score ≤ a.score))

instance : IsTotal TagResult byScoreDesc := ⟨fun a b => le_total b.score a.score⟩

instance : IsTrans TagResult byScoreDesc := ⟨fun _ _ _ h1 h2 => le_trans h2 h1⟩

/-- Source: `tag_categories(tx, address_book=None)` (the Python default
argument is passed explicitly here). -/
def tag_categories (tx : Tx) (address_book : Option AddressBook) : List TagResult :=
  List.insertionSort byScoreDesc
    (directionPhase (lowerStr (normC tx.direction))
      (internalPhase (is_internal_transfer tx address_book)
        (kwFold (normC tx.memo) KEYWORDS
          (feePhase (asDecimalC tx.fee) (asDecimalC tx.amount)))))

/-! ## `tag_category` -/

/-- Tie-break walk: first priority entry appearing among the contenders
(the inner loop returns `r.category`, which equals the entry walked). -/
def findPriority : List String → List TagResult → Option String
  | [], _ => none
  | p :: ps, contenders =>
    if contenders.any (fun r => r.category == p) then some p
    else findPriority ps contenders

/-- Source: `tag_category(tx, address_book=None)`: empty results →
`"unknown"`; otherwise contenders are the results tied with the head's
score (the head of the descending sort), a unique contender wins, and ties
walk `PRIORITY + ["expense", "unknown"]`, falling back to the first
contender.  `contenders` is nonempty (its first element is the head), so
`headD r` is the source's `contenders[0]`. -/
def tag_category (tx : Tx) (address_book : Option AddressBook) : String :=
  match tag_categories tx address_book with
  | [] => "unknown"
  | r :: rs =>
    let contenders := (r :: rs).filter (fun s => decide (s.score = r.score))
    if contenders.length = 1 then (contenders.headD r).category
    else
      match findPriority (PRIORITY ++ ["expense", "unknown"]) contenders with
      | some c => c
      | none => (contenders.headD r).category


/-! ## Observations on result lists

Since every signal materializes at most one `TagResult` per category, the
accumulated score, the accumulated reasons, and the number of entries of a
category are the natural observations; the score and count are invariant
under the final (permuting) sort, and so are the reasons once categories
are unique. -/

/-- Total score the results assign to a category (0 when absent). -/
def scoreOf (rs : List TagResult) (cat : String) : ℚ :=
  ((rs.filter (fun r => r.category == cat)).map (fun r => r.score)).sum

/-- Reasons the results assign to a category, in order. -/
def reasonsOf (rs : List TagResult) (cat : String) : List TagReason :=
  ((rs.filter (fun r => r.category == cat)).map (fun r => r.reasons)).flatten

/-- Number of `TagResult` entries carrying a category. -/
def catCount (rs : List TagResult) (cat : String) : ℕ :=
  (rs.filter (fun r => r.category == cat)).length

theorem scoreOf_nil (c : String) : scoreOf [] c = 0 := rfl

theorem reasonsOf_nil (c : String) : reasonsOf [] c = [] := rfl

theorem catCount_nil (c : String) : catCount [] c = 0 := rfl

theorem scoreOf_cons (r : TagResult) (rs : List TagResult) (c : String) :
    scoreOf (r :: rs) c = (if r.category = c then r.score else 0) + scoreOf rs c := by
  by_cases h : r.category = c <;> simp [scoreOf, List.filter_cons, h]

theorem reasonsOf_cons (r : TagResult) (rs : List TagResult) (c : String) :
    reasonsOf (r :: rs) c = (if r.category = c then r.reasons else []) ++ reasonsOf rs c := by
  by_cases h : r.category = c <;> simp [reasonsOf, List.filter_cons, h]

theorem catCount_cons (r : TagResult) (rs : List TagResult) (c : String) :
    catCount (r :: rs) c = (if r.category = c then 1 else 0) + catCount rs c := by
  by_cases h : r.category = c <;> simp [catCount, List.filter_cons, h, Nat.add_comm]

theorem scoreOf_append (l₁ l₂ : List TagResult) (c : String) :
    scoreOf (l₁ ++ l₂) c = scoreOf l₁ c + scoreOf l₂ c := by
  simp [scoreOf, List.filter_append]

theorem reasonsOf_append (l₁ l₂ : List TagResult) (c : String) :
    reasonsOf (l₁ ++ l₂) c = reasonsOf l₁ c ++ reasonsOf l₂ c := by
  simp [reasonsOf, List.filter_append]

theorem catCount_append (l₁ l₂ : List TagResult) (c : String) :
    catCount (l₁ ++ l₂) c = catCount l₁ c + catCount l₂ c := by
  simp [catCount, List.filter_append]

theorem catCount_eq_zero_iff (rs : List TagResult) (c : String) :
    catCount rs c = 0 ↔ rs.filter (fun r => r.category == c) = [] := by
  simp [catCount, List.length_eq_zero]

theorem scoreOf_of_catCount_zero (rs : List TagResult) (c : String)
    (h : catCount rs c = 0) : scoreOf rs c = 0 := by
  unfold scoreOf
  rw [(catCount_eq_zero_iff rs c).mp h]
  rfl

theorem reasonsOf_of_catCount_zero (rs : List TagResult) (c : String)
    (h : catCount rs c = 0) : reasonsOf rs c = [] := by
  unfold reasonsOf
  rw [(catCount_eq_zero_iff rs c).mp h]
  rfl

/-! ## How `addSignal` moves the observations -/

theorem catCount_updateFirst (cat : String) (w : ℚ) (re : TagReason) :
    ∀ (rs : List TagResult) (c : String),
      catCount (updateFirst cat w re rs) c = catCount rs c
  | [], _ => rfl
  | r :: rs, c => by
    rw [updateFirst]
    by_cases hr : r.category = cat
    · rw [if_pos hr, catCount_cons, catCount_cons]
    · rw [if_neg hr, catCount_cons, catCount_cons, catCount_updateFirst cat w re rs c]

theorem scoreOf_updateFirst (cat : String) (w : ℚ) (re : TagReason) :
    ∀ (rs : List TagResult) (c : String),
      (rs.any (fun r => r.category == cat)) = true →
      scoreOf (updateFirst cat w re rs) c = scoreOf rs c + (if c = cat then w else 0)
  | [], _, h => by simp at h
  | r :: rs, c, h => by
    rw [updateFirst]
    by_cases hr : r.category = cat
    · rw [if_pos hr, scoreOf_cons, scoreOf_cons]
      by_cases hc : c = cat
      · rw [if_pos hc]
        have : r.category = c := by rw [hr, hc]
        rw [if_pos this]
        simp only [this, if_pos]
        ring
      · rw [if_neg hc]
        have : r.category ≠ c := fun hh => hc (by rw [← hh, hr])
        rw [if_neg this, if_neg this]
        ring
    · rw [if_neg hr]
      have hany : (rs.any (fun r => r.category == cat)) = true := by
        simp only [List.any_cons, Bool.or_eq_true, beq_iff_eq] at h
        rcases h with h | h
        · exact absurd h hr
        · simpa using h
      rw [scoreOf_cons, scoreOf_cons, scoreOf_updateFirst cat w re rs c hany]
      ring

theorem reasonsOf_updateFirst (cat : String) (w : ℚ) (re : TagReason) :
    ∀ (rs : List TagResult) (c : String),
      catCount rs cat ≤ 1 →
      (rs.any (fun r => r.category == cat)) = true →
      reasonsOf (updateFirst cat w re rs) c =
        reasonsOf rs c ++ (if c = cat then [re] else [])
  | [], _, _, h => by simp at h
  | r :: rs, c, hu, h => by
    rw [updateFirst]
    by_cases hr : r.category = cat
    · rw [if_pos hr, reasonsOf_cons, reasonsOf_cons]
      have hcnt : catCount rs cat = 0 := by
        rw [catCount_cons, if_pos hr] at hu
        omega
      by_cases hc : c = cat
      · have hcc : r.category = c := by rw [hr, hc]
        rw [if_pos hc, if_pos hcc]
        simp only [hcc, if_pos]
        rw [reasonsOf_of_catCount_zero rs c (hc ▸ hcnt)]
        simp
      · have hcc : r.category ≠ c := fun hh => hc (by rw [← hh, hr])
        rw [if_neg hc, if_neg hcc, if_neg hcc]
        simp
    · rw [if_neg hr]
      have hany : (rs.any (fun r => r.category == cat)) = true := by
        simp only [List.any_cons, Bool.or_eq_true, beq_iff_eq] at h
        rcases h with h | h
        · exact absurd h hr
        · simpa using h
      have hu' : catCount rs cat ≤ 1 := by
        rw [catCount_cons, if_neg hr] at hu
        omega
      rw [reasonsOf_cons, reasonsOf_cons,
          reasonsOf_updateFirst cat w re rs c hu' hany, List.append_assoc]

theorem scoreOf_addSignal (rs : List TagResult) (cat : String) (w : ℚ) (re : TagReason)
    (c : String) :
    scoreOf (addSignal rs cat w re) c = scoreOf rs c + (if c = cat then w else 0) := by
  rw [addSignal]
  by_cases h : (rs.any (fun r => r.category == cat)) = true
  · rw [if_pos h, scoreOf_updateFirst cat w re rs c h]
  · rw [if_neg h, scoreOf_append, scoreOf_cons, scoreOf_nil]
    by_cases hc : c = cat
    · rw [if_pos hc, if_pos hc.symm]
      ring
    · rw [if_neg hc, if_neg (fun hh => hc (Eq.symm hh))]
      ring

theorem catCount_addSignal (rs : List TagResult) (cat : String) (w : ℚ) (re : TagReason)
    (c : String) :
    catCount (addSignal rs cat w re) c =
      if c = cat then max (catCount rs c) 1 else catCount rs c := by
  rw [addSignal]
  by_cases h : (rs.any (fun r => r.category == cat)) = true
  · rw [if_pos h, catCount_updateFirst]
    by_cases hc : c = cat
    · rw [if_pos hc]
      obtain ⟨r, hr, hrc⟩ := List.any_eq_true.mp h
      have : 1 ≤ catCount rs c := by
        have hmem : r ∈ rs.filter (fun r => r.category == c) :=
          List.mem_filter.mpr ⟨hr, by rw [hc]; exact hrc⟩
        exact Nat.succ_le_of_lt (List.length_pos.mpr (List.ne_nil_of_mem hmem))
      exact (Nat.max_eq_left this).symm
    · rw [if_neg hc]
  · rw [if_neg h, catCount_append, catCount_cons, catCount_nil]
    by_cases hc : c = cat
    · rw [if_pos hc, if_pos hc.symm]
      have : catCount rs c = 0 := by
        rw [catCount_eq_zero_iff]
        rw [List.filter_eq_nil_iff]
        intro r hr
        simp only [beq_iff_eq]
        intro hrc
        exact h (List.any_eq_true.mpr ⟨r, hr, by rw [hc] at hrc; simp [hrc]⟩)
      omega
    · rw [if_neg hc, if_neg (fun hh => hc (Eq.symm hh))]
      omega

theorem reasonsOf_addSignal (rs : List TagResult) (cat : String) (w : ℚ) (re : TagReason)
    (c : String) (hu : catCount rs cat ≤ 1) :
    reasonsOf (addSignal rs cat w re) c =
      reasonsOf rs c ++ (if c = cat then [re] else []) := by
  rw [addSignal]
  by_cases h : (rs.any (fun r => r.category == cat)) = true
  · rw [if_pos h, reasonsOf_updateFirst cat w re rs c hu h]
  · rw [if_neg h, reasonsOf_append, reasonsOf_cons, reasonsOf_nil]
    by_cases hc : c = cat
    · rw [if_pos hc, if_pos hc.symm]
      simp
    · rw [if_neg hc, if_neg (fun hh => hc (Eq.symm hh))]
      simp

/-! ## Category uniqueness invariant -/

/-- Every category occurs on at most one `TagResult` (the `next(...)`
update pattern keeps this invariant from the empty list onward). -/
def CatOk (rs : List TagResult) : Prop := ∀ c, catCount rs c ≤ 1

theorem catOk_nil : CatOk [] := fun _ => by simp [catCount]

theorem catOk_addSignal (rs : List TagResult) (cat : String) (w : ℚ) (re : TagReason)
    (hu : CatOk rs) : CatOk (addSignal rs cat w re) := by
  intro c
  rw [catCount_addSignal]
  by_cases hc : c = cat
  · rw [if_pos hc]
    exact Nat.max_le.mpr ⟨hu c, le_refl 1⟩
  · rw [if_neg hc]
    exact hu c

/-! ## The keyword phase -/

/-- Number of configured keywords of a category matching the memo
(summed over every configuration entry carrying that category). -/
def kwCount (kws : List (String × List String)) (cat memo : String) : ℕ :=
  ((kws.filter (fun p => p.1 == cat)).map
    (fun p => (p.2.filter (fun w => reSearchWord w memo)).length)).sum

/-- Keyword-match reasons of a category, in configuration order. -/
def kwReasonsFor (kws : List (String × List String)) (cat memo : String) : List TagReason :=
  ((kws.filter (fun p => p.1 == cat)).map
    (fun p => (p.2.filter (fun w => reSearchWord w memo)).map (kwReason p.1))).flatten

theorem scoreOf_wordsFold (memo cat : String) :
    ∀ (ws : List String) (acc : List TagResult) (c : String),
      scoreOf (wordsFold memo cat ws acc) c =
        scoreOf acc c +
          (if c = cat then
            (0.6 : ℚ) * ((ws.filter (fun w => reSearchWord w memo)).length : ℚ) else 0)
  | [], acc, c => by simp [wordsFold]
  | w :: ws, acc, c => by
    rw [wordsFold, List.foldl_cons]
    by_cases hw : reSearchWord w memo = true
    · simp only [hw, if_true]
      have ih := scoreOf_wordsFold memo cat ws (addSignal acc cat 0.6 (kwReason cat w)) c
      rw [wordsFold] at ih
      rw [ih, scoreOf_addSignal, List.filter_cons, hw]
      by_cases hc : c = cat
      · simp only [hc, if_true, List.length_cons]
        push_cast
        ring
      · simp only [hc, if_false]
        ring
    · simp only [Bool.not_eq_true] at hw
      simp only [hw, Bool.false_eq_true, if_false]
      have ih := scoreOf_wordsFold memo cat ws acc c
      rw [wordsFold] at ih
      rw [ih, List.filter_cons, hw]
      simp

theorem catOk_wordsFold (memo cat : String) :
    ∀ (ws : List String) (acc : List TagResult), CatOk acc → CatOk (wordsFold memo cat ws acc)
  | [], acc, hu => hu
  | w :: ws, acc, hu => by
    rw [wordsFold, List.foldl_cons]
    by_cases hw : reSearchWord w memo = true
    · simp only [hw, if_true]
      have := catOk_wordsFold memo cat ws (addSignal acc cat 0.6 (kwReason cat w))
        (catOk_addSignal acc cat 0.6 (kwReason cat w) hu)
      rwa [wordsFold] at this
    · simp only [Bool.not_eq_true] at hw
      simp only [hw, Bool.false_eq_true, if_false]
      have := catOk_wordsFold memo cat ws acc hu
      rwa [wordsFold] at this

theorem reasonsOf_wordsFold (memo cat : String) :
    ∀ (ws : List String) (acc : List TagResult) (c : String), CatOk acc →
      reasonsOf (wordsFold memo cat ws acc) c =
        reasonsOf acc c ++
          (if c = cat then (ws.filter (fun w => reSearchWord w memo)).map (kwReason cat)
           else [])
  | [], acc, c, _ => by simp [wordsFold]
  | w :: ws, acc, c, hu => by
    rw [wordsFold, List.foldl_cons]
    by_cases hw : reSearchWord w memo = true
    · simp only [hw, if_true]
      have ih := reasonsOf_wordsFold memo cat ws (addSignal acc cat 0.6 (kwReason cat w)) c
        (catOk_addSignal acc cat 0.6 (kwReason cat w) hu)
      rw [wordsFold] at ih
      rw [ih, reasonsOf_addSignal acc cat 0.6 (kwReason cat w) c (hu cat), List.filter_cons, hw]
      by_cases hc : c = cat
      · simp only [hc, if_true, List.map_cons, List.append_assoc]
        simp
      · simp only [hc, if_false]
        simp
    · simp only [Bool.not_eq_true] at hw
      simp only [hw, Bool.false_eq_true, if_false]
      have ih := reasonsOf_wordsFold memo cat ws acc c hu
      rw [wordsFold] at ih
      rw [ih, List.filter_cons, hw]
      simp

theorem scoreOf_kwFold (memo : String) :
    ∀ (kws : List (String × List String)) (acc : List TagResult) (c : String),
      scoreOf (kwFold memo kws acc) c = scoreOf acc c + (0.6 : ℚ) * (kwCount kws c memo : ℚ)
  | [], acc, c => by simp [kwFold, kwCount]
  | p :: kws, acc, c => by
    rw [kwFold, List.foldl_cons]
    have ih := scoreOf_kwFold memo kws (wordsFold memo p.1 p.2 acc) c
    rw [kwFold] at ih
    rw [ih, scoreOf_wordsFold]
    simp only [kwCount, List.filter_cons]
    by_cases hp : p.1 = c
    · simp only [hp, beq_self_eq_true, if_true, List.map_cons, List.sum_cons, ite_true,
        eq_self_iff_true]
      push_cast
      ring
    · have hb : (p.1 == c) = false := by simpa using hp
      simp only [hb, Bool.false_eq_true, if_false, if_neg (fun hh => hp (Eq.symm hh))]
      ring

theorem catOk_kwFold (memo : String) :
    ∀ (kws : List (String × List String)) (acc : List TagResult),
      CatOk acc → CatOk (kwFold memo kws acc)
  | [], _, hu => hu
  | p :: kws, acc, hu => by
    rw [kwFold, List.foldl_cons]
    have := catOk_kwFold memo kws (wordsFold memo p.1 p.2 acc)
      (catOk_wordsFold memo p.1 p.2 acc hu)
    rwa [kwFold] at this

theorem reasonsOf_kwFold (memo : String) :
    ∀ (kws : List (String × List String)) (acc : List TagResult) (c : String),
      CatOk acc →
      reasonsOf (kwFold memo kws acc) c = reasonsOf acc c ++ kwReasonsFor kws c memo
  | [], acc, c, _ => by simp [kwFold, kwReasonsFor]
  | p :: kws, acc, c, hu => by
    rw [kwFold, List.foldl_cons]
    have ih := reasonsOf_kwFold memo kws (wordsFold memo p.1 p.2 acc) c
      (catOk_wordsFold memo p.1 p.2 acc hu)
    rw [kwFold] at ih
    rw [ih, reasonsOf_wordsFold memo p.1 p.2 acc c hu]
    simp only [kwReasonsFor, List.filter_cons]
    by_cases hp : p.1 = c
    · simp only [hp, beq_self_eq_true, if_true, List.map_cons, List.flatten_cons, ite_true,
        eq_self_iff_true, List.append_assoc]
    · have hb : (p.1 == c) = false := by simpa using hp
      simp only [hb, Bool.false_eq_true, if_false, if_neg (fun hh => hp (Eq.symm hh)),
        List.append_nil, List.append_assoc]

/-! ## The remaining phases -/

theorem scoreOf_feePhase (fee amount : ℚ) (c : String) :
    scoreOf (feePhase fee amount) c =
      if c = "fee" ∧ fee > 0 ∧ amount ≤ 0 then 1 else 0 := by
  unfold feePhase
  by_cases hfa : fee > 0 ∧ amount ≤ 0
  · rw [if_pos hfa, scoreOf_cons, scoreOf_nil]
    by_cases hc : c = "fee"
    · norm_num [hc, hfa.1, hfa.2]
    · simp [hc, Ne.symm hc]
  · rw [if_neg hfa, scoreOf_nil]
    simp [hfa]

theorem reasonsOf_feePhase (fee amount : ℚ) (c : String) :
    reasonsOf (feePhase fee amount) c =
      if c = "fee" ∧ fee > 0 ∧ amount ≤ 0 then [feeSignalReason] else [] := by
  unfold feePhase
  by_cases hfa : fee > 0 ∧ amount ≤ 0
  · rw [if_pos hfa, reasonsOf_cons, reasonsOf_nil]
    by_cases hc : c = "fee"
    · simp [hc, hfa.1, hfa.2]
    · simp [hc, Ne.symm hc]
  · rw [if_neg hfa, reasonsOf_nil]
    simp [hfa]

theorem catOk_feePhase (fee amount : ℚ) : CatOk (feePhase fee amount) := by
  intro c
  unfold feePhase
  by_cases hfa : fee > 0 ∧ amount ≤ 0
  · rw [if_pos hfa, catCount_cons, catCount_nil]
    by_cases hc : "fee" = c <;> simp [hc]
  · rw [if_neg hfa, catCount_nil]
    omega

theorem scoreOf_internalPhase (fired : Bool) (rs : List TagResult) (c : String) :
    scoreOf (internalPhase fired rs) c =
      scoreOf rs c + (if c = "transfer" ∧ fired = true then 1 else 0) := by
  cases fired
  · simp [internalPhase]
  · simp only [internalPhase, if_true]
    rw [scoreOf_addSignal]
    by_cases hc : c = "transfer" <;> (simp [hc]; try norm_num)

theorem reasonsOf_internalPhase (fired : Bool) (rs : List TagResult) (c : String)
    (hu : CatOk rs) :
    reasonsOf (internalPhase fired rs) c =
      reasonsOf rs c ++ (if c = "transfer" ∧ fired = true then [internalReason] else []) := by
  cases fired
  · simp [internalPhase]
  · simp only [internalPhase, if_true]
    rw [reasonsOf_addSignal rs "transfer" 1.0 internalReason c (hu "transfer")]
    by_cases hc : c = "transfer" <;> simp [hc]

theorem catOk_internalPhase (fired : Bool) (rs : List TagResult) (hu : CatOk rs) :
    CatOk (internalPhase fired rs) := by
  cases fired
  · simpa [internalPhase] using hu
  · simp only [internalPhase, if_true]
    exact catOk_addSignal rs "transfer" 1.0 internalReason hu

theorem scoreOf_directionPhase (d : String) (rs : List TagResult) (c : String) :
    scoreOf (directionPhase d rs) c =
      scoreOf rs c +
        (if d ∈ ["in", "incoming", "credit"] then (if c = "income" then (0.4 : ℚ) else 0)
         else if d ∈ ["out", "outgoing", "debit"] then (if c = "expense" then (0.4 : ℚ) else 0)
         else 0) := by
  unfold directionPhase
  by_cases h1 : d ∈ ["in", "incoming", "credit"]
  · rw [if_pos h1, if_pos h1, scoreOf_addSignal]
  · rw [if_neg h1, if_neg h1]
    by_cases h2 : d ∈ ["out", "outgoing", "debit"]
    · rw [if_pos h2, if_pos h2, scoreOf_addSignal]
    · rw [if_neg h2, if_neg h2]
      ring

theorem reasonsOf_directionPhase (d : String) (rs : List TagResult) (c : String)
    (hu : CatOk rs) :
    reasonsOf (directionPhase d rs) c =
      reasonsOf rs c ++
        (if d ∈ ["in", "incoming", "credit"] then
          (if c = "income" then [inboundReason] else [])
         else if d ∈ ["out", "outgoing", "debit"] then
          (if c = "expense" then [outboundReason] else [])
         else []) := by
  unfold directionPhase
  by_cases h1 : d ∈ ["in", "incoming", "credit"]
  · rw [if_pos h1, if_pos h1, reasonsOf_addSignal rs "income" 0.4 inboundReason c (hu "income")]
  · rw [if_neg h1, if_neg h1]
    by_cases h2 : d ∈ ["out", "outgoing", "debit"]
    · rw [if_pos h2, if_pos h2,
        reasonsOf_addSignal rs "expense" 0.4 outboundReason c (hu "expense")]
    · rw [if_neg h2, if_neg h2]
      simp

theorem catOk_directionPhase (d : String) (rs : List TagResult) (hu : CatOk rs) :
    CatOk (directionPhase d rs) := by
  unfold directionPhase
  by_cases h1 : d ∈ ["in", "incoming", "credit"]
  · rw [if_pos h1]
    exact catOk_addSignal rs "income" 0.4 inboundReason hu
  · rw [if_neg h1]
    by_cases h2 : d ∈ ["out", "outgoing", "debit"]
    · rw [if_pos h2]
      exact catOk_addSignal rs "expense" 0.4 outboundReason hu
    · rw [if_neg h2]
      exact hu

/-! ## Observations through the final sort -/

theorem scoreOf_perm {l₁ l₂ : List TagResult} (h : List.Perm l₁ l₂) (c : String) :
    scoreOf l₁ c = scoreOf l₂ c :=
  List.Perm.sum_eq ((h.filter _).map _)

theorem catCount_perm {l₁ l₂ : List TagResult} (h : List.Perm l₁ l₂) (c : String) :
    catCount l₁ c = catCount l₂ c :=
  (h.filter _).length_eq

theorem eq_of_perm_short {l₁ l₂ : List TagResult} (h : List.Perm l₁ l₂)
    (hl : l₁.length ≤ 1) : l₁ = l₂ := by
  match l₁, hl with
  | [], _ => exact h.nil_eq
  | [a], _ => exact List.singleton_perm.mp h

theorem reasonsOf_perm {l₁ l₂ : List TagResult} (h : List.Perm l₁ l₂) (c : String)
    (hu : catCount l₁ c ≤ 1) : reasonsOf l₁ c = reasonsOf l₂ c := by
  unfold reasonsOf
  rw [eq_of_perm_short (h.filter _) hu]

/-! ## Per-category characterization of `tag_categories` -/

/-- Score the fee heuristic contributes to a category. -/
def feeContrib (tx : Tx) (c : String) : ℚ :=
  if c = "fee" ∧ asDecimalC tx.fee > 0 ∧ asDecimalC tx.amount ≤ 0 then 1 else 0

/-- Reasons the fee heuristic contributes to a category. -/
def feeContribReasons (tx : Tx) (c : String) : List TagReason :=
  if c = "fee" ∧ asDecimalC tx.fee > 0 ∧ asDecimalC tx.amount ≤ 0 then [feeSignalReason]
  else []

/-- Score the internal-transfer boost contributes to a category. -/
def internalContrib (tx : Tx) (book : Option AddressBook) (c : String) : ℚ :=
  if c = "transfer" ∧ is_internal_transfer tx book = true then 1 else 0

/-- Reasons the internal-transfer boost contributes to a category. -/
def internalContribReasons (tx : Tx) (book : Option AddressBook) (c : String) :
    List TagReason :=
  if c = "transfer" ∧ is_internal_transfer tx book = true then [internalReason] else []

/-- Score the direction soft signal contributes to a category. -/
def directionContrib (tx : Tx) (c : String) : ℚ :=
  if lowerStr (normC tx.direction) ∈ ["in", "incoming", "credit"] then
    (if c = "income" then (0.4 : ℚ) else 0)
  else if lowerStr (normC tx.direction) ∈ ["out", "outgoing", "debit"] then
    (if c = "expense" then (0.4 : ℚ) else 0)
  else 0

/-- Reasons the direction soft signal contributes to a category. -/
def directionContribReasons (tx : Tx) (c : String) : List TagReason :=
  if lowerStr (normC tx.direction) ∈ ["in", "incoming", "credit"] then
    (if c = "income" then [inboundReason] else [])
  else if lowerStr (normC tx.direction) ∈ ["out", "outgoing", "debit"] then
    (if c = "expense" then [outboundReason] else [])
  else []

theorem scoreOf_tag_categories (tx : Tx) (book : Option AddressBook) (c : String) :
    scoreOf (tag_categories tx book) c =
      feeContrib tx c + (0.6 : ℚ) * (kwCount KEYWORDS c (normC tx.memo) : ℚ) +
        internalContrib tx book c + directionContrib tx c := by
  unfold tag_categories
  rw [scoreOf_perm (List.perm_insertionSort byScoreDesc _) c]
  rw [scoreOf_directionPhase, scoreOf_internalPhase]
  have hk := scoreOf_kwFold (normC tx.memo) KEYWORDS
    (feePhase (asDecimalC tx.fee) (asDecimalC tx.amount)) c
  rw [hk, scoreOf_feePhase]
  unfold feeContrib internalContrib directionContrib
  ring

theorem catOk_tag_categories (tx : Tx) (book : Option AddressBook) :
    CatOk (tag_categories tx book) := by
  intro c
  unfold tag_categories
  rw [catCount_perm (List.perm_insertionSort byScoreDesc _) c]
  exact catOk_directionPhase _ _
    (catOk_internalPhase _ _
      (catOk_kwFold _ KEYWORDS _ (catOk_feePhase _ _))) c

theorem reasonsOf_tag_categories (tx : Tx) (book : Option AddressBook) (c : String) :
    reasonsOf (tag_categories tx book) c =
      feeContribReasons tx c ++ kwReasonsFor KEYWORDS c (normC tx.memo) ++
        internalContribReasons tx book c ++ directionContribReasons tx c := by
  unfold tag_categories
  have hu0 := catOk_feePhase (asDecimalC tx.fee) (asDecimalC tx.amount)
  have hu1 := catOk_kwFold (normC tx.memo) KEYWORDS _ hu0
  have hu2 := catOk_internalPhase (is_internal_transfer tx book) _ hu1
  have hu3 := catOk_directionPhase (lowerStr (normC tx.direction)) _ hu2
  rw [reasonsOf_perm (List.perm_insertionSort byScoreDesc _) c ?hcnt]
  case hcnt =>
    rw [catCount_perm (List.perm_insertionSort byScoreDesc _) c]
    exact hu3 c
  rw [reasonsOf_directionPhase _ _ _ hu2, reasonsOf_internalPhase _ _ _ hu1]
  rw [reasonsOf_kwFold (normC tx.memo) KEYWORDS _ c hu0, reasonsOf_feePhase]
  unfold feeContribReasons internalContribReasons directionContribReasons
  simp [List.append_assoc]

theorem tag_categories_sorted (tx : Tx) (book : Option AddressBook) :
    List.Sorted byScoreDesc (tag_categories tx book) :=
  List.sorted_insertionSort byScoreDesc _

/-- Reasons carried by any single result are among the reasons of its
category. -/
theorem mem_reasonsOf (rs : List TagResult) (r : TagResult) (x : TagReason)
    (hr : r ∈ rs) (hx : x ∈ r.reasons) : x ∈ reasonsOf rs r.category := by
  unfold reasonsOf
  rw [List.mem_flatten]
  refine ⟨r.reasons, ?_, hx⟩
  exact List.mem_map_of_mem _ (List.mem_filter.mpr ⟨hr, by simp⟩)

/-- Categories with nonzero accumulated score are realized by exactly one
result carrying that score and those reasons. -/
theorem exists_entry (rs : List TagResult) (c : String)
    (hu : catCount rs c ≤ 1) (hs : scoreOf rs c ≠ 0) :
    ∃ r, r ∈ rs ∧ r.category = c ∧ r.score = scoreOf rs c ∧ r.reasons = reasonsOf rs c := by
  rcases hf : rs.filter (fun r => r.category == c) with _ | ⟨r, t⟩
  · exfalso
    apply hs
    unfold scoreOf
    rw [hf]
    rfl
  · have ht : t = [] := by
      have h1 := hu
      unfold catCount at h1
      rw [hf, List.length_cons] at h1
      have h2 : t.length = 0 := by omega
      exact List.length_eq_zero.mp h2
    subst ht
    have hrmem : r ∈ rs.filter (fun r => r.category == c) := by rw [hf]; exact List.mem_singleton.mpr rfl
    have hrc : r.category = c := by
      have := (List.mem_filter.mp hrmem).2
      simpa using this
    refine ⟨r, (List.mem_filter.mp hrmem).1, hrc, ?_, ?_⟩
    · unfold scoreOf
      rw [hf]
      simp
    · unfold reasonsOf
      rw [hf]
      simp

/-! ## Helper views of `score_risk` -/

theorem score_risk_raw_fst (u : Tx) :
    (score_risk_raw u).1 =
      0.10 + (dirStep (normG u.direction) (asDecimalG u.amount)).1 +
        (feeStep (asDecimalG u.fee) (asDecimalG u.amount)).1 +
        (memoStep (normG u.memo)).1 +
        (tagStep (u.tags.map (fun t => normG (some t)))).1 +
        (internalStep u.is_internal).1 := by
  simp only [score_risk_raw, stepAdd]

theorem score_risk_flags (u : Tx) :
    (score_risk u).2 =
      (dirStep (normG u.direction) (asDecimalG u.amount)).2 ++
        (feeStep (asDecimalG u.fee) (asDecimalG u.amount)).2 ++
        (memoStep (normG u.memo)).2 ++
        (tagStep (u.tags.map (fun t => normG (some t)))).2 ++
        (internalStep u.is_internal).2 := by
  simp only [score_risk, score_risk_raw, stepAdd]
  simp

theorem clamp01_bounds (s : ℚ) : 0 ≤ clamp01 s ∧ clamp01 s ≤ 1 := by
  unfold clamp01
  split_ifs with h1 h2 <;> constructor <;> linarith

theorem clamp01_mono {a b : ℚ} (h : a ≤ b) : clamp01 a ≤ clamp01 b := by
  unfold clamp01
  split_ifs <;> linarith

/-! ## Claim C1 -/

/-- C1: for every transaction input, `score_risk` returns a risk score in
the closed interval `[0, 1]`: no input can produce a score below 0 or
above 1, and out-of-range intermediate sums are clamped (the final value
is the clamp of the raw sum, never an error). -/
theorem C1_score_risk_bounded (tx : Tx) :
    0 ≤ (score_risk tx).1 ∧ (score_risk tx).1 ≤ 1 ∧
      (score_risk tx).1 = clamp01 (score_risk_raw tx).1 := by
  refine ⟨(clamp01_bounds (score_risk_raw tx).1).1, (clamp01_bounds (score_risk_raw tx).1).2, rfl⟩

/-! ## Claim C5 -/

/-- Unparseable-as-`Decimal` values: anything that is not a `Decimal` and
whose string form the `Decimal` constructor rejects (Python `None`
included, since `str(None) = "None"`). -/
def unparseableB : PyVal → Bool
  | PyVal.dec _ => false
  | PyVal.str s => decide (parseDec s = none)
  | PyVal.pynone => true

theorem asDecimalG_of_unparseable (v : PyVal) (h : unparseableB v = true) :
    asDecimalG v = 0 := by
  cases v with
  | dec q => simp [unparseableB] at h
  | str s =>
    have : parseDec s = none := by simpa [unparseableB] using h
    simp [asDecimalG, this]
  | pynone => decide

theorem asDecimalC_of_unparseable (v : PyVal) (h : unparseableB v = true) :
    asDecimalC v = 0 := by
  cases v with
  | dec q => simp [unparseableB] at h
  | str s =>
    have : parseDec s = none := by simpa [unparseableB] using h
    simp [asDecimalC, this]
  | pynone => rfl

/-- C5: a transaction whose `amount` (resp. `fee`) is non-numeric or
unparseable is scored and tagged exactly as if that field were `Decimal(0)`:
the coercion degrades to zero and both functions return normally (they are
total functions of the embedded record; no exception path exists once the
coercion has absorbed the failure). -/
theorem C5_malformed_numeric_neutral (tx : Tx) (book : Option AddressBook) :
    (unparseableB tx.amount = true →
      score_risk tx = score_risk { tx with amount := PyVal.dec 0 } ∧
      tag_categories tx book = tag_categories { tx with amount := PyVal.dec 0 } book) ∧
    (unparseableB tx.fee = true →
      score_risk tx = score_risk { tx with fee := PyVal.dec 0 } ∧
      tag_categories tx book = tag_categories { tx with fee := PyVal.dec 0 } book) := by
  have hg0 : asDecimalG (PyVal.dec 0) = 0 := rfl
  have hc0 : asDecimalC (PyVal.dec 0) = 0 := rfl
  constructor
  · intro h
    have h1 : asDecimalG tx.amount = 0 := asDecimalG_of_unparseable _ h
    have h2 : asDecimalC tx.amount = 0 := asDecimalC_of_unparseable _ h
    constructor
    · simp [score_risk, score_risk_raw, h1, hg0]
    · simp [tag_categories, is_internal_transfer, h2, hc0]
  · intro h
    have h1 : asDecimalG tx.fee = 0 := asDecimalG_of_unparseable _ h
    have h2 : asDecimalC tx.fee = 0 := asDecimalC_of_unparseable _ h
    constructor
    · simp [score_risk, score_risk_raw, h1, hg0]
    · simp [tag_categories, is_internal_transfer, h2, hc0]

/-- Witness for C5 at a concrete unparseable amount and fee. -/
theorem C5_witness :
    unparseableB (PyVal.str "12,5") = true ∧ unparseableB (PyVal.str "abc") = true ∧
    score_risk { txDefault with amount := PyVal.str "12,5" } =
      score_risk { { txDefault with amount := PyVal.str "12,5" } with amount := PyVal.dec 0 } ∧
    tag_categories { txDefault with fee := PyVal.str "abc" } none =
      tag_categories { { txDefault with fee := PyVal.str "abc" } with fee := PyVal.dec 0 } none :=
  ⟨by decide, by decide,
   ((C5_malformed_numeric_neutral { txDefault with amount := PyVal.str "12,5" } none).1
      (by decide)).1,
   ((C5_malformed_numeric_neutral { txDefault with fee := PyVal.str "abc" } none).2
      (by decide)).2⟩

/-! ## Claim C2 -/

/-- Number of positions where `pat` occurs in a text (the claim's
"number of occurrences" of a term; on the inputs below the occurrences are
disjoint, so this agrees with Python's non-overlapping `str.count`). -/
def occCount (pat : List Char) : List Char → ℕ
  | [] => 0
  | h :: t => (if startsWithList pat (h :: t) then 1 else 0) + occCount pat t

/-- Total number of occurrences of suspicious terms in a memo. -/
def occTotal (m : String) : ℕ :=
  (SUSPICIOUS_WORDS.map (fun w => occCount w.data m.data)).sum

/-- Number of distinct suspicious terms occurring in a memo (what the code
actually counts: `sum(1 for w in SUSPICIOUS_WORDS if w in memo)`). -/
def memoHits (m : String) : ℕ :=
  (SUSPICIOUS_WORDS.filter (fun w => strIn w.data m.data)).length

/-- Transaction whose memo repeats one suspicious term twice. -/
def txScamScam : Tx := { txDefault with memo := some "scam scam" }

theorem count_suspicious_dirStep (d : String) (a : ℚ) :
    (dirStep d a).2.count "suspicious_memo" = 0 := by
  unfold dirStep
  split_ifs <;> decide

theorem count_suspicious_feeStep (f a : ℚ) :
    (feeStep f a).2.count "suspicious_memo" = 0 := by
  unfold feeStep
  split_ifs <;> decide

theorem count_suspicious_tagStep (tags : List String) :
    (tagStep tags).2.count "suspicious_memo" = 0 := by
  unfold tagStep
  split_ifs <;> decide

theorem count_suspicious_internalStep (b : Bool) :
    (internalStep b).2.count "suspicious_memo" = 0 := by
  unfold internalStep
  split_ifs <;> decide

theorem memoStep_of_hits (m : String) (hm : m ≠ "") (hh : memoHits m ≠ 0) :
    memoStep m = ((0.20 : ℚ) + (0.05 : ℚ) * (memoHits m : ℚ), ["suspicious_memo"]) := by
  unfold memoStep
  rw [if_pos hm, if_pos (by simpa [memoHits] using hh)]
  rfl

theorem memoStep_of_no_hits (m : String) (hh : memoHits m = 0) :
    memoStep m = (0, []) := by
  unfold memoStep
  by_cases hm : m ≠ ""
  · rw [if_pos hm, if_neg (by simpa [memoHits] using hh)]
  · rw [if_neg hm]

theorem memoHits_empty : memoHits "" = 0 := by decide

theorem normG_none : normG none = "" := by decide

/-- Counterexample to C2 as stated: with memo `"scam scam"` the term
`"scam"` occurs twice, so the claim predicts a memo contribution of
`0.20 + 0.05 * 2`, but the code adds `0.20 + 0.05 * 1` (it counts distinct
terms present, not occurrences). -/
theorem C2_counterexample :
    occTotal (normG txScamScam.memo) = 2 ∧
    (score_risk_raw txScamScam).1 = 0.35 ∧
    (score_risk_raw { txScamScam with memo := none }).1 = 0.10 ∧
    (score_risk_raw txScamScam).1 ≠
      (score_risk_raw { txScamScam with memo := none }).1 +
        ((0.20 : ℚ) + (0.05 : ℚ) * (occTotal (normG txScamScam.memo) : ℕ)) := by
  have hocc : occTotal (normG txScamScam.memo) = 2 := by decide
  have hmemo : normG txScamScam.memo = "scam scam" := by decide
  have hhits : memoHits "scam scam" = 1 := by decide
  have hA : (score_risk_raw txScamScam).1 = 0.35 := by
    rw [score_risk_raw_fst]
    have h1 : (dirStep (normG txScamScam.direction) (asDecimalG txScamScam.amount)).1 = 0 := by
      decide
    have h2 : (feeStep (asDecimalG txScamScam.fee) (asDecimalG txScamScam.amount)).1 = 0 := by
      decide
    have h3 : (memoStep (normG txScamScam.memo)).1 = 0.25 := by
      rw [hmemo, memoStep_of_hits "scam scam" (by decide) (by rw [hhits]; decide), hhits]
      norm_num
    have h4 : (tagStep (txScamScam.tags.map (fun t => normG (some t)))).1 = 0 := by decide
    have h5 : (internalStep txScamScam.is_internal).1 = 0 := by decide
    rw [h1, h2, h3, h4, h5]
    norm_num
  have hB : (score_risk_raw { txScamScam with memo := none }).1 = 0.10 := by
    rw [score_risk_raw_fst]
    have h1 : (dirStep (normG ({ txScamScam with memo := none } : Tx).direction)
        (asDecimalG ({ txScamScam with memo := none } : Tx).amount)).1 = 0 := by decide
    have h2 : (feeStep (asDecimalG ({ txScamScam with memo := none } : Tx).fee)
        (asDecimalG ({ txScamScam with memo := none } : Tx).amount)).1 = 0 := by decide
    have h3 : (memoStep (normG ({ txScamScam with memo := none } : Tx).memo)).1 = 0 := by
      rw [show ({ txScamScam with memo := none } : Tx).memo = none from rfl, normG_none,
        memoStep_of_no_hits "" memoHits_empty]
    have h4 : (tagStep (({ txScamScam with memo := none } : Tx).tags.map
        (fun t => normG (some t)))).1 = 0 := by decide
    have h5 : (internalStep ({ txScamScam with memo := none } : Tx).is_internal).1 = 0 := by
      decide
    rw [h1, h2, h3, h4, h5]
    norm_num
  refine ⟨hocc, hA, hB, ?_⟩
  rw [hA, hB, hocc]
  norm_num

/-- C2 (amended): the memo contribution is `0.20 + 0.05 * hits` where
`hits` is the number of **distinct** suspicious terms occurring in the
lowercased memo (substring match), added once to the running score, with
the flag `suspicious_memo` appended exactly once; with no term present the
memo leaves score and flags unchanged. -/
theorem C2_amended_suspicious_memo (tx : Tx) :
    (memoHits (normG tx.memo) ≠ 0 →
      (score_risk_raw tx).1 =
        (score_risk_raw { tx with memo := none }).1 +
          ((0.20 : ℚ) + (0.05 : ℚ) * (memoHits (normG tx.memo) : ℚ)) ∧
      (score_risk tx).2.count "suspicious_memo" = 1) ∧
    (memoHits (normG tx.memo) = 0 →
      (score_risk_raw tx).1 = (score_risk_raw { tx with memo := none }).1 ∧
      (score_risk tx).2.count "suspicious_memo" = 0) := by
  have hmemoNone : (memoStep (normG ({ tx with memo := none } : Tx).memo)).1 = 0 := by
    rw [show ({ tx with memo := none } : Tx).memo = none from rfl, normG_none,
      memoStep_of_no_hits "" memoHits_empty]
  constructor
  · intro hh
    have hm : normG tx.memo ≠ "" := by
      intro he
      rw [he] at hh
      exact hh memoHits_empty
    constructor
    · rw [score_risk_raw_fst tx, score_risk_raw_fst ({ tx with memo := none } : Tx)]
      rw [hmemoNone, memoStep_of_hits _ hm hh]
      dsimp only
      ring
    · rw [score_risk_flags tx]
      simp only [List.count_append]
      rw [count_suspicious_dirStep, count_suspicious_feeStep, count_suspicious_tagStep,
        count_suspicious_internalStep, memoStep_of_hits _ hm hh]
      simp
  · intro hh
    constructor
    · rw [score_risk_raw_fst tx, score_risk_raw_fst ({ tx with memo := none } : Tx)]
      rw [hmemoNone, memoStep_of_no_hits _ hh]
      try dsimp only
      try ring
    · rw [score_risk_flags tx]
      simp only [List.count_append]
      rw [count_suspicious_dirStep, count_suspicious_feeStep, count_suspicious_tagStep,
        count_suspicious_internalStep, memoStep_of_no_hits _ hh]
      simp

/-- Witness for the amended C2 on a concrete memo with one distinct
suspicious term occurring twice. -/
theorem C2_amended_witness :
    memoHits (normG txScamScam.memo) ≠ 0 ∧
    ((score_risk_raw txScamScam).1 =
      (score_risk_raw { txScamScam with memo := none }).1 +
        ((0.20 : ℚ) + (0.05 : ℚ) * (memoHits (normG txScamScam.memo) : ℚ)) ∧
     (score_risk txScamScam).2.count "suspicious_memo" = 1) :=
  ⟨by decide, (C2_amended_suspicious_memo txScamScam).1 (by decide)⟩

/-! ## Claim C6 -/

/-- Outgoing transaction moving 10 units with fee 1. -/
def txOut10 : Tx :=
  { txDefault with direction := some "out", amount := PyVal.dec 10, fee := PyVal.dec 1 }

/-- The same transaction moving 50 units. -/
def txOut50 : Tx := { txOut10 with amount := PyVal.dec 50 }

/-- Counterexample to C6 as stated: the two transactions differ only in
amount, both outgoing, `|10| ≤ |50|`, yet the smaller amount scores 0.40
and the larger 0.30: the fee ratio `1/10 > 0.05` adds bumps that `1/50`
does not, so raising the outgoing magnitude lowered the risk score. -/
theorem C6_counterexample :
    |asDecimalG txOut10.amount| ≤ |asDecimalG txOut50.amount| ∧
    (score_risk txOut10).1 = 0.40 ∧ (score_risk txOut50).1 = 0.30 ∧
    ¬((score_risk txOut10).1 ≤ (score_risk txOut50).1) := by
  have habs10 : |(10 : ℚ)| = 10 := abs_of_nonneg (by norm_num)
  have habs50 : |(50 : ℚ)| = 50 := abs_of_nonneg (by norm_num)
  have hd10 : (dirStep "out" (10 : ℚ)).1 = 0.10 := by
    rw [dirStep, if_pos (by decide)]
    norm_num [habs10]
  have hd50 : (dirStep "out" (50 : ℚ)).1 = 0.10 := by
    rw [dirStep, if_pos (by decide)]
    norm_num [habs50]
  have hf10 : (feeStep (1 : ℚ) 10).1 = 0.20 := by
    rw [feeStep, if_pos (by norm_num), if_pos (by norm_num)]
    norm_num [habs10]
  have hf50 : (feeStep (1 : ℚ) 50).1 = 0.10 := by
    rw [feeStep, if_pos (by norm_num), if_pos (by norm_num)]
    norm_num [habs50]
  have hmA : (memoStep (normG txOut10.memo)).1 = 0 := by
    rw [show txOut10.memo = none from rfl, normG_none, memoStep_of_no_hits "" memoHits_empty]
  have hA : (score_risk txOut10).1 = 0.40 := by
    simp only [score_risk]
    rw [score_risk_raw_fst]
    rw [show normG txOut10.direction = "out" from by decide,
      show asDecimalG txOut10.amount = 10 from rfl,
      show asDecimalG txOut10.fee = 1 from rfl, hd10, hf10, hmA,
      show (tagStep (txOut10.tags.map (fun t => normG (some t)))).1 = 0 from by decide,
      show (internalStep txOut10.is_internal).1 = 0 from by decide]
    norm_num [clamp01]
  have hmB : (memoStep (normG txOut50.memo)).1 = 0 := by
    rw [show txOut50.memo = none from rfl, normG_none, memoStep_of_no_hits "" memoHits_empty]
  have hB : (score_risk txOut50).1 = 0.30 := by
    simp only [score_risk]
    rw [score_risk_raw_fst]
    rw [show normG txOut50.direction = "out" from by decide,
      show asDecimalG txOut50.amount = 50 from rfl,
      show asDecimalG txOut50.fee = 1 from rfl, hd50, hf50, hmB,
      show (tagStep (txOut50.tags.map (fun t => normG (some t)))).1 = 0 from by decide,
      show (internalStep txOut50.is_internal).1 = 0 from by decide]
    norm_num [clamp01]
  refine ⟨?_, hA, hB, ?_⟩
  · rw [show asDecimalG txOut10.amount = 10 from rfl,
      show asDecimalG txOut50.amount = 50 from rfl, habs10, habs50]
    norm_num
  · rw [hA, hB]
    norm_num

/-- C6 (amended): holding everything but the amount fixed, for an
outgoing direction and a fee coercing to ≤ 0 (the fee-pressure block,
whose ratio thresholds move against the magnitude, stays silent),
increasing the amount magnitude never decreases the risk score. -/
theorem C6_amended_outgoing_monotonic (tx : Tx) (a₁ a₂ : PyVal)
    (hdir : normG tx.direction ∈ ["out", "outgoing", "debit"])
    (hfee : asDecimalG tx.fee ≤ 0)
    (hmag : |asDecimalG a₁| ≤ |asDecimalG a₂|) :
    (score_risk { tx with amount := a₁ }).1 ≤ (score_risk { tx with amount := a₂ }).1 := by
  simp only [score_risk]
  apply clamp01_mono
  rw [score_risk_raw_fst, score_risk_raw_fst]
  dsimp only
  have hfz : ∀ q : ℚ, (feeStep (asDecimalG tx.fee) q).1 = 0 := by
    intro q
    rw [feeStep, if_neg (not_lt.mpr hfee)]
  rw [hfz, hfz]
  have step : ∀ c w : ℚ, 0 ≤ w →
      (if |asDecimalG a₁| > c then w else 0) ≤ (if |asDecimalG a₂| > c then w else 0) := by
    intro c w hw
    by_cases h1 : |asDecimalG a₁| > c
    · rw [if_pos h1, if_pos (lt_of_lt_of_le h1 hmag)]
    · rw [if_neg h1]
      by_cases h2 : |asDecimalG a₂| > c
      · rw [if_pos h2]
        exact hw
      · rw [if_neg h2]
  have hdm : (dirStep (normG tx.direction) (asDecimalG a₁)).1 ≤
      (dirStep (normG tx.direction) (asDecimalG a₂)).1 := by
    rw [dirStep, dirStep, if_pos hdir, if_pos hdir]
    dsimp only
    have t1 := step 0 0.10 (by norm_num)
    have t2 := step 100 0.10 (by norm_num)
    have t3 := step 1000 0.15 (by norm_num)
    have t4 := step 10000 0.15 (by norm_num)
    linarith
  linarith [hdm]

/-- Witness for the amended C6 at amounts 5 and 200 with zero fee. -/
theorem C6_amended_witness :
    normG ({ txDefault with direction := some "out", fee := PyVal.dec 0 } : Tx).direction ∈
      ["out", "outgoing", "debit"] ∧
    asDecimalG ({ txDefault with direction := some "out", fee := PyVal.dec 0 } : Tx).fee ≤ 0 ∧
    |asDecimalG (PyVal.dec 5)| ≤ |asDecimalG (PyVal.dec 200)| ∧
    (score_risk { { txDefault with direction := some "out", fee := PyVal.dec 0 } with
        amount := PyVal.dec 5 }).1 ≤
      (score_risk { { txDefault with direction := some "out", fee := PyVal.dec 0 } with
        amount := PyVal.dec 200 }).1 := by
  have h1 : normG ({ txDefault with direction := some "out", fee := PyVal.dec 0 } : Tx).direction ∈
      ["out", "outgoing", "debit"] := by decide
  have h2 : asDecimalG ({ txDefault with direction := some "out", fee := PyVal.dec 0 } : Tx).fee ≤
      0 := le_of_eq rfl
  have h3 : |asDecimalG (PyVal.dec 5)| ≤ |asDecimalG (PyVal.dec 200)| := by
    rw [show asDecimalG (PyVal.dec 5) = 5 from rfl, show asDecimalG (PyVal.dec 200) = 200 from rfl,
      abs_of_nonneg (by norm_num : (0:ℚ) ≤ 5), abs_of_nonneg (by norm_num : (0:ℚ) ≤ 200)]
    norm_num
  exact ⟨h1, h2, h3,
    C6_amended_outgoing_monotonic { txDefault with direction := some "out", fee := PyVal.dec 0 }
      (PyVal.dec 5) (PyVal.dec 200) h1 h2 h3⟩

/-! ## Claim C4 -/

/-- C4: the loader returns the built-in defaults when the file is missing,
but it does NOT catch parse failures: on an existing file whose content is
malformed (or parses to a non-mapping), `_load_tagging_config` propagates
the exception instead of returning the defaults — the claim's
"never raises" universal fails on those inputs. -/
theorem C4_loader_missing_ok_but_malformed_raises :
    (∀ p, load_tagging_config (fun _ => none) p =
      Except.ok (DEFAULT_KEYWORDS, DEFAULT_PRIORITY)) ∧
    load_tagging_config (fun _ => some YamlDoc.failed) "automation/tagging.yaml" =
      Except.error "yaml.safe_load raised on malformed content" ∧
    load_tagging_config (fun _ => some YamlDoc.scalar) "automation/tagging.yaml" =
      Except.error "AttributeError: document is not a mapping" :=
  ⟨fun _ => rfl, rfl, rfl⟩

/-! ## Claim C9 -/

/-- Scenario B transaction of the spec and of `test_fee_detection`. -/
def txScenB : Tx :=
  { txDefault with
    memo := some "network fee", amount := PyVal.dec (-1),
    fee := PyVal.dec 0.1, direction := some "out" }

theorem directionContrib_fee (tx : Tx) : directionContrib tx "fee" = 0 := by
  unfold directionContrib
  split_ifs <;> simp_all

theorem internalContrib_fee (tx : Tx) (book : Option AddressBook) :
    internalContrib tx book "fee" = 0 := by
  unfold internalContrib
  split_ifs with h
  · exact absurd h.1 (by decide)
  · rfl

/-- C9 (first part): with `fee > 0` and `amount ≤ 0` the results contain a
`fee` entry whose reasons include "Positive fee + nonpositive amount" and
whose score is the 1.0 fee signal plus the fee-category keyword hits. -/
theorem C9_fee_heuristic (tx : Tx) (book : Option AddressBook)
    (hf : asDecimalC tx.fee > 0) (ha : asDecimalC tx.amount ≤ 0) :
    ∃ r, r ∈ tag_categories tx book ∧ r.category = "fee" ∧
      feeSignalReason ∈ r.reasons ∧
      r.score = 1 + (0.6 : ℚ) * (kwCount KEYWORDS "fee" (normC tx.memo) : ℚ) := by
  have hsc : scoreOf (tag_categories tx book) "fee" =
      1 + (0.6 : ℚ) * (kwCount KEYWORDS "fee" (normC tx.memo) : ℚ) := by
    rw [scoreOf_tag_categories, directionContrib_fee, internalContrib_fee]
    rw [feeContrib, if_pos ⟨rfl, hf, ha⟩]
    ring
  have hpos : (0 : ℚ) ≤ (kwCount KEYWORDS "fee" (normC tx.memo) : ℚ) := Nat.cast_nonneg _
  have hne : scoreOf (tag_categories tx book) "fee" ≠ 0 := by
    rw [hsc]
    intro hzero
    nlinarith
  obtain ⟨r, hmem, hcat, hscore, hreas⟩ :=
    exists_entry _ "fee" (catOk_tag_categories tx book "fee") hne
  refine ⟨r, hmem, hcat, ?_, by rw [hscore, hsc]⟩
  rw [hreas, reasonsOf_tag_categories]
  rw [feeContribReasons, if_pos ⟨rfl, hf, ha⟩]
  simp

theorem tag_categories_scenB :
    tag_categories txScenB none =
      [{ category := "fee", score := 2.2,
         reasons := [feeSignalReason, kwReason "fee" "fee", kwReason "fee" "network"] },
       { category := "expense", score := 0.4, reasons := [outboundReason] }] := by
  have hmemo : normC txScenB.memo = "network fee" := by decide
  have hdir : lowerStr (normC txScenB.direction) = "out" := by decide
  have w1 : reSearchWord "salary" "network fee" = false := by decide
  have w2 : reSearchWord "airdrop" "network fee" = false := by decide
  have w3 : reSearchWord "reward" "network fee" = false := by decide
  have w4 : reSearchWord "interest" "network fee" = false := by decide
  have w5 : reSearchWord "yield" "network fee" = false := by decide
  have w6 : reSearchWord "fee" "network fee" = true := by decide
  have w7 : reSearchWord "gas" "network fee" = false := by decide
  have w8 : reSearchWord "network" "network fee" = true := by decide
  have w9 : reSearchWord "swap" "network fee" = false := by decide
  have w10 : reSearchWord "trade" "network fee" = false := by decide
  have w11 : reSearchWord "exchange" "network fee" = false := by decide
  have w12 : reSearchWord "transfer" "network fee" = false := by decide
  have w13 : reSearchWord "send" "network fee" = false := by decide
  have w14 : reSearchWord "receive" "network fee" = false := by decide
  rw [tag_categories, hmemo, hdir,
    show is_internal_transfer txScenB none = false from rfl,
    show asDecimalC txScenB.fee = 0.1 from rfl,
    show asDecimalC txScenB.amount = -1 from rfl,
    feePhase, if_pos (by norm_num : (0.1 : ℚ) > 0 ∧ (-1 : ℚ) ≤ 0)]
  norm_num [KEYWORDS, DEFAULT_KEYWORDS, kwFold, wordsFold, w1, w2, w3, w4, w5, w6, w7, w8,
    w9, w10, w11, w12, w13, w14, addSignal, updateFirst, internalPhase, directionPhase,
    List.insertionSort, List.orderedInsert, byScoreDesc, feeSignalReason, kwReason,
    outboundReason, patternOf, reEscape]

/-- C9 (second part): Scenario B — `tag_category` returns `fee` on the
`{memo: "network fee", amount: -1, fee: 0.1, direction: "out"}`
transaction with no address book. -/
theorem C9_scenB_tag_category : tag_category txScenB none = "fee" := by
  simp only [tag_category, tag_categories_scenB]
  norm_num [decide_eq_true_eq]

/-- C9: with `fee > 0` and `amount ≤ 0` the results gain a `fee` entry
with the 1.0 fee signal and the reason "Positive fee + nonpositive
amount" (plus any fee-keyword hits); and on the Scenario B transaction
`tag_category` returns `fee`. -/
theorem C9_fee_signal_and_scenB :
    (∀ (tx : Tx) (book : Option AddressBook),
      asDecimalC tx.fee > 0 → asDecimalC tx.amount ≤ 0 →
      ∃ r, r ∈ tag_categories tx book ∧ r.category = "fee" ∧
        feeSignalReason ∈ r.reasons ∧
        r.score = 1 + (0.6 : ℚ) * (kwCount KEYWORDS "fee" (normC tx.memo) : ℚ)) ∧
    tag_category txScenB none = "fee" :=
  ⟨fun tx book hf ha => C9_fee_heuristic tx book hf ha, C9_scenB_tag_category⟩

/-- Witness for C9 at the Scenario B transaction. -/
theorem C9_fee_signal_witness :
    asDecimalC txScenB.fee > 0 ∧ asDecimalC txScenB.amount ≤ 0 ∧
    ∃ r, r ∈ tag_categories txScenB none ∧ r.category = "fee" ∧
      feeSignalReason ∈ r.reasons ∧
      r.score = 1 + (0.6 : ℚ) * (kwCount KEYWORDS "fee" (normC txScenB.memo) : ℚ) := by
  have h1 : asDecimalC txScenB.fee > 0 := by
    rw [show asDecimalC txScenB.fee = 0.1 from rfl]
    norm_num
  have h2 : asDecimalC txScenB.amount ≤ 0 := by
    rw [show asDecimalC txScenB.amount = -1 from rfl]
    norm_num
  exact ⟨h1, h2, C9_fee_signal_and_scenB.1 txScenB none h1 h2⟩

/-! ## Claim C8 -/

theorem upperLower_no_find :
    ∀ p ∈ UPPER_LOWER, UPPER_LOWER.find? (fun q => q.1 == p.2) = none := by decide

theorem lowerChar_idem (c : Char) : lowerChar (lowerChar c) = lowerChar c := by
  rcases hf : UPPER_LOWER.find? (fun q => q.1 == c) with _ | p
  · have h : lowerChar c = c := by
      unfold lowerChar
      rw [hf]
      rfl
    rw [h, h]
  · have h : lowerChar c = p.2 := by
      unfold lowerChar
      rw [hf]
      rfl
    rw [h]
    have hnone := upperLower_no_find p (List.mem_of_find?_eq_some hf)
    unfold lowerChar
    rw [hnone]
    rfl

theorem lowerStr_idem (s : String) : lowerStr (lowerStr s) = lowerStr s := by
  unfold lowerStr
  refine congrArg String.mk ?_
  show ((String.mk (s.data.map lowerChar)).data).map lowerChar = s.data.map lowerChar
  rw [show (String.mk (s.data.map lowerChar)).data = s.data.map lowerChar from rfl,
    List.map_map]
  exact List.map_congr_left (fun a _ => lowerChar_idem a)

theorem lowerStr_eq_empty_iff (s : String) : lowerStr s = "" ↔ s = "" := by
  constructor
  · intro h
    have hd := congrArg String.data h
    rw [show (lowerStr s).data = s.data.map lowerChar from rfl,
      show ("" : String).data = [] from rfl] at hd
    have : s.data = [] := List.map_eq_nil_iff.mp hd
    cases s with
    | mk d =>
      rw [show (String.mk d).data = d from rfl] at this
      rw [this]
  · intro h
    rw [h]
    rfl

theorem is_owned_lower (b : AddressBook) (s : String) :
    b.is_owned (some (lowerStr s)) = b.is_owned (some s) := by
  show (decide (lowerStr s ≠ "") && decide (lowerStr (lowerStr s) ∈ b.owned)) =
    (decide (s ≠ "") && decide (lowerStr s ∈ b.owned))
  rw [lowerStr_idem,
    decide_eq_decide.mpr (not_congr (lowerStr_eq_empty_iff s))]

theorem directionContrib_eq_zero (tx : Tx) (c : String)
    (h1 : c ≠ "income") (h2 : c ≠ "expense") : directionContrib tx c = 0 := by
  unfold directionContrib
  split_ifs <;> simp_all

theorem directionContribReasons_none (tx : Tx) (c : String) :
    internalReason ∉ directionContribReasons tx c := by
  unfold directionContribReasons
  split_ifs <;> simp_all [internalReason, inboundReason, outboundReason]

/-- C8: with both addresses present (after stripping) and both owned by
the address book, the `transfer` category gains the 1.0 internal-transfer
signal with its reason (plus any transfer-keyword hits); `is_owned` is
false on null and empty input and is case-insensitive (lowercasing the
queried address does not change the answer). -/
theorem C8_internal_transfer_signal :
    (∀ (tx : Tx) (b : AddressBook),
      normC tx.from_address ≠ "" → normC tx.to_address ≠ "" →
      b.is_owned (some (normC tx.from_address)) = true →
      b.is_owned (some (normC tx.to_address)) = true →
      scoreOf (tag_categories tx (some b)) "transfer" =
          1 + (0.6 : ℚ) * (kwCount KEYWORDS "transfer" (normC tx.memo) : ℚ) ∧
        internalReason ∈ reasonsOf (tag_categories tx (some b)) "transfer") ∧
    (∀ b : AddressBook, b.is_owned none = false) ∧
    (∀ b : AddressBook, b.is_owned (some "") = false) ∧
    (∀ (b : AddressBook) (s : String), b.is_owned (some (lowerStr s)) = b.is_owned (some s)) := by
  refine ⟨?_, fun b => rfl, fun b => by simp [AddressBook.is_owned], is_owned_lower⟩
  intro tx b hfa hta hof hot
  have hint : is_internal_transfer tx (some b) = true := by
    show (decide (lowerStr (normC tx.from_address) ≠ "") &&
        decide (lowerStr (normC tx.to_address) ≠ "") &&
        b.is_owned (some (lowerStr (normC tx.from_address))) &&
        b.is_owned (some (lowerStr (normC tx.to_address)))) = true
    rw [is_owned_lower, is_owned_lower, hof, hot]
    rw [decide_eq_true ((not_congr (lowerStr_eq_empty_iff _)).mpr hfa),
      decide_eq_true ((not_congr (lowerStr_eq_empty_iff _)).mpr hta)]
    rfl
  constructor
  · rw [scoreOf_tag_categories]
    rw [show feeContrib tx "transfer" = 0 from
        if_neg (fun hh => absurd hh.1 (by decide)),
      show internalContrib tx (some b) "transfer" = 1 from if_pos ⟨rfl, hint⟩,
      directionContrib_eq_zero tx "transfer" (by decide) (by decide)]
    ring
  · rw [reasonsOf_tag_categories]
    rw [show internalContribReasons tx (some b) "transfer" = [internalReason] from
        if_pos ⟨rfl, hint⟩]
    simp

/-- Witness for C8 on the owned pair `rA`/`rB` (mixed case in the book). -/
theorem C8_internal_transfer_witness :
    normC ({ txDefault with from_address := some "rA", to_address := some "rB" } : Tx).from_address ≠ "" ∧
    normC ({ txDefault with from_address := some "rA", to_address := some "rB" } : Tx).to_address ≠ "" ∧
    (AddressBook.ofOwned ["rA", "rB"]).is_owned
      (some (normC ({ txDefault with from_address := some "rA", to_address := some "rB" } : Tx).from_address)) = true ∧
    (AddressBook.ofOwned ["rA", "rB"]).is_owned
      (some (normC ({ txDefault with from_address := some "rA", to_address := some "rB" } : Tx).to_address)) = true ∧
    scoreOf (tag_categories { txDefault with from_address := some "rA", to_address := some "rB" }
        (some (AddressBook.ofOwned ["rA", "rB"]))) "transfer" =
      1 + (0.6 : ℚ) * (kwCount KEYWORDS "transfer"
        (normC ({ txDefault with from_address := some "rA", to_address := some "rB" } : Tx).memo) : ℚ) ∧
    internalReason ∈ reasonsOf (tag_categories
      { txDefault with from_address := some "rA", to_address := some "rB" }
      (some (AddressBook.ofOwned ["rA", "rB"]))) "transfer" := by
  have h1 : normC ({ txDefault with from_address := some "rA", to_address := some "rB" } : Tx).from_address ≠ "" := by decide
  have h2 : normC ({ txDefault with from_address := some "rA", to_address := some "rB" } : Tx).to_address ≠ "" := by decide
  have h3 : (AddressBook.ofOwned ["rA", "rB"]).is_owned
      (some (normC ({ txDefault with from_address := some "rA", to_address := some "rB" } : Tx).from_address)) = true := by decide
  have h4 : (AddressBook.ofOwned ["rA", "rB"]).is_owned
      (some (normC ({ txDefault with from_address := some "rA", to_address := some "rB" } : Tx).to_address)) = true := by decide
  obtain ⟨hs, hr⟩ := C8_internal_transfer_signal.1
    { txDefault with from_address := some "rA", to_address := some "rB" }
    (AddressBook.ofOwned ["rA", "rB"]) h1 h2 h3 h4
  exact ⟨h1, h2, h3, h4, hs, hr⟩

/-! ## Claim C10 -/

theorem keyword_reason_ne_internal (t : String) :
    ("Keyword match: " ++ t) ≠ "Internal transfer (same owner)" := by
  intro h
  have hd := congrArg String.data h
  rw [String.data_append] at hd
  have hk : ("Keyword match: " : String).data =
      'K' :: "eyword match: ".data := by decide
  rw [hk] at hd
  have : 'K' = 'I' := by
    have h5 := congrArg (fun l => List.headD l ' ') hd
    simp at h5
  exact absurd this (by decide)

theorem internalReason_notin_kwReasonsFor (c m : String) :
    internalReason ∉ kwReasonsFor KEYWORDS c m := by
  intro hmem
  unfold kwReasonsFor at hmem
  rw [List.mem_flatten] at hmem
  obtain ⟨l, hl, hml⟩ := hmem
  rw [List.mem_map] at hl
  obtain ⟨p, _, hpl⟩ := hl
  rw [← hpl, List.mem_map] at hml
  obtain ⟨w, _, hw⟩ := hml
  have := congrArg TagReason.reason hw
  exact keyword_reason_ne_internal (patternOf w) (by simpa [kwReason, internalReason] using this)

/-- C10: with `address_book = None` the internal-transfer signal never
fires: no returned result carries the reason "Internal transfer (same
owner)", and the `transfer` category scores only through keyword
matches. -/
theorem C10_none_book_disables_internal (tx : Tx) :
    (∀ r ∈ tag_categories tx none, internalReason ∉ r.reasons) ∧
    scoreOf (tag_categories tx none) "transfer" =
      (0.6 : ℚ) * (kwCount KEYWORDS "transfer" (normC tx.memo) : ℚ) := by
  constructor
  · intro r hr hmem
    have hin := mem_reasonsOf (tag_categories tx none) r internalReason hr hmem
    rw [reasonsOf_tag_categories] at hin
    rcases List.mem_append.mp hin with hin' | hdir
    · rcases List.mem_append.mp hin' with hin'' | hint
      · rcases List.mem_append.mp hin'' with hfee | hkw
        · unfold feeContribReasons at hfee
          split_ifs at hfee with hcond
          · exact absurd (List.mem_singleton.mp hfee) (by decide)
          · simp at hfee
        · exact internalReason_notin_kwReasonsFor _ _ hkw
      · unfold internalContribReasons at hint
        split_ifs at hint with hcond
        · exact absurd hcond.2 (by rw [show is_internal_transfer tx none = false from rfl]; decide)
        · simp at hint
    · exact directionContribReasons_none tx r.category hdir
  · rw [scoreOf_tag_categories]
    rw [show feeContrib tx "transfer" = 0 from if_neg (fun hh => absurd hh.1 (by decide)),
      show internalContrib tx none "transfer" = 0 from
        if_neg (fun hh => by
          rw [show is_internal_transfer tx none = false from rfl] at hh
          exact absurd hh.2 (by decide)),
      directionContrib_eq_zero tx "transfer" (by decide) (by decide)]
    ring

/-- Transaction used to witness C10. -/
def txKwTransfer : Tx := { txDefault with memo := some "transfer" }

theorem tag_categories_txKwTransfer :
    tag_categories txKwTransfer none =
      [{ category := "transfer", score := 0.6, reasons := [kwReason "transfer" "transfer"] }] := by
  have w1 : reSearchWord "salary" "transfer" = false := by decide
  have w2 : reSearchWord "airdrop" "transfer" = false := by decide
  have w3 : reSearchWord "reward" "transfer" = false := by decide
  have w4 : reSearchWord "interest" "transfer" = false := by decide
  have w5 : reSearchWord "yield" "transfer" = false := by decide
  have w6 : reSearchWord "fee" "transfer" = false := by decide
  have w7 : reSearchWord "gas" "transfer" = false := by decide
  have w8 : reSearchWord "network" "transfer" = false := by decide
  have w9 : reSearchWord "swap" "transfer" = false := by decide
  have w10 : reSearchWord "trade" "transfer" = false := by decide
  have w11 : reSearchWord "exchange" "transfer" = false := by decide
  have w12 : reSearchWord "transfer" "transfer" = true := by decide
  have w13 : reSearchWord "send" "transfer" = false := by decide
  have w14 : reSearchWord "receive" "transfer" = false := by decide
  rw [tag_categories,
    show normC txKwTransfer.memo = "transfer" from by decide,
    show lowerStr (normC txKwTransfer.direction) = "" from by decide,
    show is_internal_transfer txKwTransfer none = false from rfl,
    show asDecimalC txKwTransfer.fee = 0 from rfl,
    show asDecimalC txKwTransfer.amount = 0 from rfl,
    feePhase, if_neg (by norm_num : ¬((0 : ℚ) > 0 ∧ (0 : ℚ) ≤ 0))]
  norm_num [KEYWORDS, DEFAULT_KEYWORDS, kwFold, wordsFold, w1, w2, w3, w4, w5, w6, w7, w8,
    w9, w10, w11, w12, w13, w14, addSignal, updateFirst, internalPhase, directionPhase,
    List.insertionSort, List.orderedInsert, byScoreDesc, kwReason, patternOf, reEscape]

/-- Result entry produced for the witness transaction of C10. -/
def krTransfer : TagResult :=
  { category := "transfer", score := 0.6, reasons := [kwReason "transfer" "transfer"] }

/-- Witness for C10 on a concrete transfer-keyword transaction. -/
theorem C10_witness :
    krTransfer ∈ tag_categories txKwTransfer none ∧
      internalReason ∉ krTransfer.reasons := by
  have hmem : krTransfer ∈ tag_categories txKwTransfer none := by
    rw [tag_categories_txKwTransfer]
    exact List.mem_singleton.mpr rfl
  exact ⟨hmem, (C10_none_book_disables_internal txKwTransfer).1 _ hmem⟩

/-! ## Claim C7 -/

theorem kwCount_of_mem (cat : String) (ws : List String)
    (h : (cat, ws) ∈ KEYWORDS) (m : String) :
    kwCount KEYWORDS cat m = (ws.filter (fun w => reSearchWord w m)).length := by
  simp only [KEYWORDS, DEFAULT_KEYWORDS, List.mem_cons, List.not_mem_nil, or_false,
    Prod.mk.injEq] at h
  rcases h with ⟨h1, h2⟩ | ⟨h1, h2⟩ | ⟨h1, h2⟩ | ⟨h1, h2⟩ <;>
    (subst h1; subst h2; simp [kwCount, KEYWORDS, DEFAULT_KEYWORDS])

theorem kwReasonsFor_of_mem (cat : String) (ws : List String)
    (h : (cat, ws) ∈ KEYWORDS) (m : String) :
    kwReasonsFor KEYWORDS cat m =
      (ws.filter (fun w => reSearchWord w m)).map (kwReason cat) := by
  simp only [KEYWORDS, DEFAULT_KEYWORDS, List.mem_cons, List.not_mem_nil, or_false,
    Prod.mk.injEq] at h
  rcases h with ⟨h1, h2⟩ | ⟨h1, h2⟩ | ⟨h1, h2⟩ | ⟨h1, h2⟩ <;>
    (subst h1; subst h2; simp [kwReasonsFor, KEYWORDS, DEFAULT_KEYWORDS])

/-- C7: for every configured `(category, keywords)` pair, a keyword scores
exactly when it matches the memo case-insensitively as a whole word (the
`\b`-delimited compiled regex `reSearchWord`, not bare substring); each
matching keyword adds 0.6 and its own reason naming the keyword's pattern;
all of a category's matches accumulate on at most one `TagResult`. -/
theorem C7_keyword_scoring (tx : Tx) (book : Option AddressBook) (cat : String)
    (ws : List String) (hmem : (cat, ws) ∈ KEYWORDS) :
    scoreOf (tag_categories tx book) cat =
        feeContrib tx cat + internalContrib tx book cat + directionContrib tx cat +
          (0.6 : ℚ) * ((ws.filter (fun w => reSearchWord w (normC tx.memo))).length : ℚ) ∧
    catCount (tag_categories tx book) cat ≤ 1 ∧
    reasonsOf (tag_categories tx book) cat =
        feeContribReasons tx cat ++
          ((ws.filter (fun w => reSearchWord w (normC tx.memo))).map (kwReason cat)) ++
          internalContribReasons tx book cat ++ directionContribReasons tx cat := by
  refine ⟨?_, catOk_tag_categories tx book cat, ?_⟩
  · rw [scoreOf_tag_categories, kwCount_of_mem cat ws hmem]
    ring
  · rw [reasonsOf_tag_categories, kwReasonsFor_of_mem cat ws hmem]

/-- Witness for C7: the `fee` configuration row against Scenario B's memo. -/
theorem C7_keyword_scoring_witness :
    ("fee", ["fee", "gas", "network"]) ∈ KEYWORDS ∧
    (scoreOf (tag_categories txScenB none) "fee" =
        feeContrib txScenB "fee" + internalContrib txScenB none "fee" +
          directionContrib txScenB "fee" +
          (0.6 : ℚ) * ((["fee", "gas", "network"].filter
            (fun w => reSearchWord w (normC txScenB.memo))).length : ℚ) ∧
     catCount (tag_categories txScenB none) "fee" ≤ 1 ∧
     reasonsOf (tag_categories txScenB none) "fee" =
        feeContribReasons txScenB "fee" ++
          ((["fee", "gas", "network"].filter
            (fun w => reSearchWord w (normC txScenB.memo))).map (kwReason "fee")) ++
          internalContribReasons txScenB none "fee" ++ directionContribReasons txScenB "fee") :=
  ⟨by decide, C7_keyword_scoring txScenB none "fee" ["fee", "gas", "network"] (by decide)⟩

/-! ## Claim C3 -/

theorem foldl_max_of_le (l : List ℚ) (a : ℚ) (h : ∀ x ∈ l, x ≤ a) :
    l.foldl max a = a := by
  induction l generalizing a with
  | nil => rfl
  | cons x xs ih =>
    rw [List.foldl_cons, max_eq_left (h x (List.mem_cons_self x xs))]
    exact ih a (fun y hy => h y (List.mem_cons_of_mem x hy))

/-- Maximum score among the results (0 on an empty list, never consulted
there). -/
def maxScore : List TagResult → ℚ
  | [] => 0
  | r :: rs => (rs.map (fun s => s.score)).foldl max r.score

/-- Modelled from the claim text of C3: return `unknown` when
`tag_categories` is empty; otherwise the contenders are the results tied
at the **maximum** score; return the unique contender if there is exactly
one, else the first category of `PRIORITY ++ ["expense", "unknown"]`
appearing among the contenders, and if none matches, the first contender
in the stable score-sorted order. -/
def tagCategoryViaMax (tx : Tx) (address_book : Option AddressBook) : String :=
  match tag_categories tx address_book with
  | [] => "unknown"
  | r :: rs =>
    let contenders := (r :: rs).filter (fun s => decide (s.score = maxScore (r :: rs)))
    if contenders.length = 1 then (contenders.headD r).category
    else
      match findPriority (PRIORITY ++ ["expense", "unknown"]) contenders with
      | some c => c
      | none => (contenders.headD r).category

/-- C3: `tag_category` implements exactly the claim's description — the
head of the descending stable sort carries the maximum score, so the
code's head-score contenders are the claim's maximum-score contenders,
and the tie-break walks coincide. -/
theorem C3_tag_category_via_max (tx : Tx) (book : Option AddressBook) :
    tag_category tx book = tagCategoryViaMax tx book := by
  rcases htc : tag_categories tx book with _ | ⟨r, rs⟩
  · unfold tag_category tagCategoryViaMax
    rw [htc]
  · have hs : List.Sorted byScoreDesc (r :: rs) := htc ▸ tag_categories_sorted tx book
    have hmax : maxScore (r :: rs) = r.score := by
      unfold maxScore
      apply foldl_max_of_le
      intro x hx
      rw [List.mem_map] at hx
      obtain ⟨s, hsmem, hsx⟩ := hx
      rw [← hsx]
      exact List.rel_of_sorted_cons hs s hsmem
    unfold tag_category tagCategoryViaMax
    rw [htc]
    dsimp only
    rw [hmax]
